import Mathlib

/-!
Shallow embedding of `the_snake.py`: the grid constants, the `Apple` and
`Snake` state, the per-tick operations (`update_direction`, `move`, `reset`,
`randomize_position`) and the driver loop of `main`.  Randomness
(`random.choice`, `random.randint`) is made explicit: each random draw is a
parameter of the corresponding function; `random.choice([UP, DOWN, LEFT,
RIGHT])` takes an index `k : Fin 4` and `random.randint(0, n - 1)` takes an
integer parameter constrained to `[0, n - 1]` where a theorem needs the bound.
Pixel rendering, window management and the pygame event queue are platform
glue outside the embedded core; directional key events are modelled as the
list of direction indices drained by `handle_keys` each tick.
-/

namespace TheSnake

/-- `SCREEN_WIDTH = 640` (src line 8). -/
def SCREEN_WIDTH : Int := 640

/-- `SCREEN_HEIGHT = 480` (src line 9). -/
def SCREEN_HEIGHT : Int := 480

/-- `GRID_SIZE = 20` (src line 10). -/
def GRID_SIZE : Int := 20

/-- `GRID_WIDTH = SCREEN_WIDTH // GRID_SIZE` (src line 13). -/
def GRID_WIDTH : Int := SCREEN_WIDTH / GRID_SIZE

/-- `GRID_HEIGHT = SCREEN_HEIGHT // GRID_SIZE` (src line 14). -/
def GRID_HEIGHT : Int := SCREEN_HEIGHT / GRID_SIZE

/-- A position on the screen, in pixels: `Tuple[int, int]`. -/
abbrev Cell := Int × Int

/-- `UP = (0, -1)` (src line 22). -/
def UP : Cell := (0, -1)

/-- `DOWN = (0, 1)` (src line 23). -/
def DOWN : Cell := (0, 1)

/-- `LEFT = (-1, 0)` (src line 24). -/
def LEFT : Cell := (-1, 0)

/-- `RIGHT = (1, 0)` (src line 25). -/
def RIGHT : Cell := (1, 0)

/-- The list `[UP, DOWN, LEFT, RIGHT]` used by `random.choice` in
`Snake.reset` (src line 195) and as the set of direction vectors. -/
def dirList : List Cell := [UP, DOWN, LEFT, RIGHT]

/-- The grid-aligned board centre computed in `GameObject.__init__`
(src lines 64-66) and in `Snake.reset` (src lines 187-189):
`((SCREEN_WIDTH // 2) // GRID_SIZE * GRID_SIZE, (SCREEN_HEIGHT // 2) // GRID_SIZE * GRID_SIZE)`. -/
def centre : Cell :=
  (SCREEN_WIDTH / 2 / GRID_SIZE * GRID_SIZE, SCREEN_HEIGHT / 2 / GRID_SIZE * GRID_SIZE)

/-- State of the `Snake` object (src lines 113-120): `length`, `positions`
(head first), committed `direction`, buffered `next_direction`, and `last`
(the tail cell removed by the latest `move`, used only by `draw`). -/
structure SnakeState where
  length : Nat
  positions : List Cell
  direction : Cell
  next_direction : Option Cell
  last : Option Cell
  deriving DecidableEq, Repr

/-- `Snake.__init__` (src lines 113-120): length 1 at the board centre,
direction `RIGHT`, no buffered direction. -/
def snakeInit : SnakeState :=
  { length := 1
    positions := [centre]
    direction := RIGHT
    next_direction := none
    last := none }

/-- `Snake.get_head_position` (src lines 122-124): `self.positions[0]`.
`positions` is never empty in the program, so the default is irrelevant. -/
def get_head_position (s : SnakeState) : Cell :=
  s.positions.headD (0, 0)

/-- `Snake.update_direction` (src lines 126-139): apply the buffered
`next_direction` unless it is the exact opposite of the current direction;
note the blocked branch returns without clearing `next_direction`. -/
def update_direction (s : SnakeState) : SnakeState :=
  match s.next_direction with
  | none => s
  | some nd =>
    if s.direction.1 = -nd.1 ∧ s.direction.2 = -nd.2 then s
    else { s with direction := nd, next_direction := none }

/-- The new-head computation of `Snake.move` (src lines 147-152):
per-axis `(coordinate + delta * GRID_SIZE) % screen extent`, with Python's
nonnegative `%` (Lean's `Int.emod`). -/
def stepWrap (c d : Cell) : Cell :=
  ((c.1 + d.1 * GRID_SIZE) % SCREEN_WIDTH, (c.2 + d.2 * GRID_SIZE) % SCREEN_HEIGHT)

/-- `Snake.reset` (src lines 185-196): length 1 at the board centre, clear
`last` and `next_direction`, direction `random.choice([UP, DOWN, LEFT, RIGHT])`
with the drawn index `k` made explicit. -/
def reset (k : Fin 4) : SnakeState :=
  { length := 1
    positions := [centre]
    direction := dirList.get k
    next_direction := none
    last := none }

/-- The collision test of `Snake.move` (src line 155):
`new_head in self.positions[2:]`. -/
def moveResets (s : SnakeState) : Bool :=
  decide (stepWrap (get_head_position s) s.direction ∈ s.positions.drop 2)

/-- `Snake.move` (src lines 141-166): compute the wrapped new head; on
self-collision against `positions[2:]` call `reset` (the `random.choice`
index `k` is threaded through) and return; otherwise insert the new head
and pop the tail cell into `last` when the body exceeds `length`. -/
def move (s : SnakeState) (k : Fin 4) : SnakeState :=
  let new_head := stepWrap (get_head_position s) s.direction
  if new_head ∈ s.positions.drop 2 then
    reset k
  else
    let ps := new_head :: s.positions
    if ps.length > s.length then
      { s with positions := ps.dropLast, last := ps.getLast? }
    else
      { s with positions := ps, last := none }

/-- `Apple.randomize_position` (src lines 90-94): `position =
(grid_x * GRID_SIZE, grid_y * GRID_SIZE)` where `grid_x` and `grid_y` are
the explicit results of `random.randint(0, GRID_WIDTH - 1)` and
`random.randint(0, GRID_HEIGHT - 1)`. -/
def randomize_position (gx gy : Int) : Cell :=
  (gx * GRID_SIZE, gy * GRID_SIZE)

/-- `handle_keys` (src lines 202-217), arrow-key part: each drained
directional key event overwrites `next_direction`; `kmap` lists the events
of this tick in order, as indices into `dirList`. -/
def handle_keys (s : SnakeState) (kmap : List (Fin 4)) : SnakeState :=
  kmap.foldl (fun t k => { t with next_direction := some (dirList.get k) }) s

/-- Driver state: the `snake` and the `apple` position owned by `main`. -/
structure GameState where
  snake : SnakeState
  apple : Cell
  deriving DecidableEq, Repr

/-- The random draws and input events consumed by one iteration of the
`while True` loop of `main`: the drained key events, the `random.choice`
index used if `reset` runs, and the two `random.randint` results used if
the apple relocates. -/
structure TickInput where
  keys : List (Fin 4)
  resetK : Fin 4
  gx : Int
  gy : Int
  deriving DecidableEq, Repr

/-- One iteration of the loop of `main` (src lines 230-242), rendering and
pacing omitted: `handle_keys`, `update_direction`, `move`, then
`if snake.get_head_position() == apple.position: snake.length += 1;
apple.randomize_position()`. -/
def tick (g : GameState) (i : TickInput) : GameState :=
  let s1 := handle_keys g.snake i.keys
  let s2 := update_direction s1
  let s3 := move s2 i.resetK
  if get_head_position s3 = g.apple then
    { snake := { s3 with length := s3.length + 1 }
      apple := randomize_position i.gx i.gy }
  else
    { snake := s3, apple := g.apple }

/-- Run the driver loop over a list of per-tick inputs. -/
def run (g : GameState) (is : List TickInput) : GameState :=
  is.foldl tick g

/-- The state set up by `main` before the loop (src lines 227-228): a fresh
snake and an apple whose constructor already called `randomize_position`
with the given draws. -/
def gameInit (gx gy : Int) : GameState :=
  { snake := snakeInit, apple := randomize_position gx gy }

/-! ### Derived notions used to state the spec's properties -/

/-- Componentwise negation of a direction vector: the "exact opposite". -/
def negd (d : Cell) : Cell := (-d.1, -d.2)

/-- A cell is on the board: each pixel coordinate nonnegative and below the
screen extent. -/
def inRange (c : Cell) : Prop :=
  0 ≤ c.1 ∧ c.1 < SCREEN_WIDTH ∧ 0 ≤ c.2 ∧ c.2 < SCREEN_HEIGHT

instance (c : Cell) : Decidable (inRange c) := by
  unfold inRange; infer_instance

/-- Wrap-aware adjacency: `b` is reached from `a` by exactly one grid step
in one of the four unit directions, with toroidal wrap. -/
def Adj (a b : Cell) : Prop :=
  ∃ d ∈ dirList, b = stepWrap a d

instance (a b : Cell) : Decidable (Adj a b) := by
  unfold Adj; infer_instance

/-- The body-shape part of the snake invariant: the body is non-empty, its
first element is the head, it has no duplicate cells, and consecutive cells
are wrap-adjacent by one grid step. -/
def BodyOK (s : SnakeState) : Prop :=
  s.positions ≠ [] ∧
  s.positions.head? = some (get_head_position s) ∧
  s.positions.Nodup ∧
  s.positions.Chain' Adj

/-- Full invariant of the snake at a tick boundary of `main`'s loop:
the direction is a unit vector, the body is well-shaped (`BodyOK`), all body
cells are on the board, any buffered direction is a unit vector, and when a
neck cell exists it is exactly one reverse step behind the head (the head
was produced from the neck by the last committed move direction). -/
structure Inv (s : SnakeState) : Prop where
  dirMem : s.direction ∈ dirList
  ne : s.positions ≠ []
  inR : ∀ c ∈ s.positions, inRange c
  nodup : s.positions.Nodup
  chain : s.positions.Chain' Adj
  nextMem : ∀ nd, s.next_direction = some nd → nd ∈ dirList
  neck : ∀ c1, s.positions.tail.head? = some c1 →
    c1 = stepWrap (get_head_position s) (negd s.direction)

/-- The snake invariant in force between `update_direction` and `move`:
the direction may have just turned, so the neck is one step from the head in
some unit direction that the current direction does not retrace. -/
structure PreMove (s : SnakeState) : Prop where
  dirMem : s.direction ∈ dirList
  ne : s.positions ≠ []
  inR : ∀ c ∈ s.positions, inRange c
  nodup : s.positions.Nodup
  chain : s.positions.Chain' Adj
  nextMem : ∀ nd, s.next_direction = some nd → nd ∈ dirList
  neck : ∀ c1, s.positions.tail.head? = some c1 →
    ∃ e ∈ dirList, c1 = stepWrap (get_head_position s) e ∧ s.direction ≠ e

/-! ### Concrete executions used as test inputs and counterexamples -/

/-- A snake heading RIGHT with the exact opposite direction buffered. -/
def sOppBuf : SnakeState :=
  { snakeInit with next_direction := some LEFT }

/-- First five tick inputs of a concrete execution: eat three apples placed
ahead on the centre row (the third relocation placing the apple at the board
centre), then turn UP and LEFT to coil into a 2x2 loop. -/
def trace5 : List TickInput :=
  [ { keys := [], resetK := 0, gx := 18, gy := 12 },
    { keys := [], resetK := 0, gx := 19, gy := 12 },
    { keys := [], resetK := 0, gx := 16, gy := 12 },
    { keys := [0], resetK := 0, gx := 0, gy := 0 },
    { keys := [2], resetK := 0, gx := 0, gy := 0 } ]

/-- Sixth tick input: turn DOWN, closing the loop onto the snake's own body
and forcing a self-collision reset. -/
def trace6 : TickInput := { keys := [1], resetK := 0, gx := 0, gy := 0 }

/-- The game state after the five ticks of `trace5`, starting from the
initial state whose apple was drawn one cell right of the centre. -/
def game5 : GameState := run (gameInit 17 12) trace5

/-- Tick input for end-to-end scenario A: no key events; relocation draws
`(0, 0)` if the apple is eaten. -/
def tickA : TickInput := { keys := [], resetK := 0, gx := 0, gy := 0 }

/-- Initial state of scenario A: fresh snake at the centre moving RIGHT,
apple drawn at grid cell `(17, 12)`, one cell right of the centre. -/
def gameA : GameState := gameInit 17 12

/-- A snake heading RIGHT with a perpendicular direction (UP) buffered. -/
def sPerpBuf : SnakeState :=
  { snakeInit with next_direction := some UP }

/-- A length-3 snake about to move RIGHT into its own neck cell
`positions[1]`: the head is at the centre and the neck one cell to its
right. -/
def sNeck : SnakeState :=
  { length := 3
    positions := [(320, 240), (340, 240), (340, 220)]
    direction := RIGHT
    next_direction := none
    last := none }

/-! ### Basic facts about directions and `stepWrap` -/

theorem negd_negd (d : Cell) : negd (negd d) = d := by
  simp [negd]

theorem negd_mem {d : Cell} (h : d ∈ dirList) : negd d ∈ dirList := by
  fin_cases h <;> decide

theorem ne_negd_self {d : Cell} (h : d ∈ dirList) : d ≠ negd d := by
  fin_cases h <;> decide

theorem negd_eq_iff {a b : Cell} : negd a = b ↔ a = negd b := by
  simp only [negd, Prod.ext_iff]
  omega

theorem dirList_get_mem (k : Fin 4) : dirList.get k ∈ dirList := by
  fin_cases k <;> decide

theorem stepWrap_inRange (c d : Cell) : inRange (stepWrap c d) := by
  unfold inRange stepWrap SCREEN_WIDTH SCREEN_HEIGHT
  refine ⟨Int.emod_nonneg _ (by norm_num), Int.emod_lt_of_pos _ (by norm_num),
    Int.emod_nonneg _ (by norm_num), Int.emod_lt_of_pos _ (by norm_num)⟩

theorem stepWrap_inj {c d₁ d₂ : Cell} (h₁ : d₁ ∈ dirList) (h₂ : d₂ ∈ dirList)
    (h : stepWrap c d₁ = stepWrap c d₂) : d₁ = d₂ := by
  obtain ⟨x, y⟩ := c
  fin_cases h₁ <;> fin_cases h₂ <;>
    simp_all [stepWrap, UP, DOWN, LEFT, RIGHT, GRID_SIZE, SCREEN_WIDTH, SCREEN_HEIGHT,
      Prod.ext_iff] <;>
    omega

theorem stepWrap_ne_self {c d : Cell} (h : d ∈ dirList) : stepWrap c d ≠ c := by
  obtain ⟨x, y⟩ := c
  fin_cases h <;>
    simp [stepWrap, UP, DOWN, LEFT, RIGHT, GRID_SIZE, SCREEN_WIDTH, SCREEN_HEIGHT,
      Prod.ext_iff] <;>
    omega

theorem stepWrap_negd {c d : Cell} (hc : inRange c) (h : d ∈ dirList) :
    stepWrap (stepWrap c d) (negd d) = c := by
  obtain ⟨x, y⟩ := c
  obtain ⟨hx0, hx1, hy0, hy1⟩ := hc
  simp only [SCREEN_WIDTH, SCREEN_HEIGHT] at hx1 hy1
  fin_cases h <;>
    simp [stepWrap, negd, UP, DOWN, LEFT, RIGHT, GRID_SIZE, SCREEN_WIDTH, SCREEN_HEIGHT,
      Prod.ext_iff] <;>
    constructor <;> omega

theorem centre_inRange : inRange centre := by decide

/-! ### Structural facts about the operations -/

theorem handle_keys_cases (s : SnakeState) (ks : List (Fin 4)) :
    handle_keys s ks = s ∨
    ∃ k : Fin 4, handle_keys s ks = { s with next_direction := some (dirList.get k) } := by
  induction ks generalizing s with
  | nil => exact Or.inl rfl
  | cons k ks ih =>
    have hstep : handle_keys s (k :: ks) =
        handle_keys { s with next_direction := some (dirList.get k) } ks := rfl
    rcases ih { s with next_direction := some (dirList.get k) } with h | ⟨k', h⟩
    · exact Or.inr ⟨k, by rw [hstep, h]⟩
    · exact Or.inr ⟨k', by rw [hstep, h]⟩

theorem update_direction_cases (s : SnakeState) :
    update_direction s = s ∨
    ∃ nd, s.next_direction = some nd ∧ nd ≠ negd s.direction ∧
      update_direction s = { s with direction := nd, next_direction := none } := by
  unfold update_direction
  cases h : s.next_direction with
  | none => exact Or.inl rfl
  | some nd =>
    by_cases hb : s.direction.1 = -nd.1 ∧ s.direction.2 = -nd.2
    · simp [hb]
    · right
      refine ⟨nd, rfl, ?_, by simp [hb]⟩
      intro hnd
      apply hb
      rw [hnd]
      simp [negd]

theorem move_eq_reset {s : SnakeState} (k : Fin 4) (h : moveResets s = true) :
    move s k = reset k := by
  unfold moveResets at h
  unfold move
  simp only [decide_eq_true_eq] at h
  simp [h]

theorem inv_reset (k : Fin 4) : Inv (reset k) := by
  refine ⟨dirList_get_mem k, by simp [reset], ?_, by simp [reset], by simp [reset],
    ?_, ?_⟩
  · intro c hc
    simp [reset] at hc
    subst hc
    exact centre_inRange
  · intro nd hnd
    simp [reset] at hnd
  · intro c1 hc1
    simp [reset] at hc1

end TheSnake

namespace TheSnake

theorem inv_handle_keys {s : SnakeState} (h : Inv s) (ks : List (Fin 4)) :
    Inv (handle_keys s ks) := by
  rcases handle_keys_cases s ks with he | ⟨k, he⟩
  · rw [he]; exact h
  · rw [he]
    obtain ⟨hdir, hne, hinR, hnodup, hchain, hnext, hneck⟩ := h
    refine ⟨hdir, hne, hinR, hnodup, hchain, ?_, hneck⟩
    intro nd hnd
    simp only [Option.some.injEq] at hnd
    rw [← hnd]
    exact dirList_get_mem k

theorem inv_premove_update {s : SnakeState} (h : Inv s) : PreMove (update_direction s) := by
  obtain ⟨hdir, hne, hinR, hnodup, hchain, hnext, hneck⟩ := h
  rcases update_direction_cases s with he | ⟨nd, hsome, hnne, he⟩
  · rw [he]
    refine ⟨hdir, hne, hinR, hnodup, hchain, hnext, ?_⟩
    intro c1 hc1
    exact ⟨negd s.direction, negd_mem hdir, hneck c1 hc1, ne_negd_self hdir⟩
  · rw [he]
    refine ⟨hnext nd hsome, hne, hinR, hnodup, hchain, ?_, ?_⟩
    · intro nd' hnd'
      simp at hnd'
    · intro c1 hc1
      exact ⟨negd s.direction, negd_mem hdir, hneck c1 hc1, hnne⟩

theorem get_head_position_mk (n : Nat) (ps : List Cell) (d : Cell) (nd lst : Option Cell) :
    get_head_position
      { length := n, positions := ps, direction := d, next_direction := nd, last := lst } =
      ps.headD (0, 0) := rfl

theorem premove_move {s : SnakeState} (h : PreMove s) (k : Fin 4) : Inv (move s k) := by
  obtain ⟨hdir, hne, hinR, hnodup, hchain, hnext, hneck⟩ := h
  obtain ⟨hd, rest, hps⟩ : ∃ hd rest, s.positions = hd :: rest := by
    cases hps : s.positions with
    | nil => exact absurd hps hne
    | cons a l => exact ⟨a, l, rfl⟩
  have hhead : get_head_position s = hd := by simp [get_head_position, hps]
  by_cases hcol : stepWrap (get_head_position s) s.direction ∈ s.positions.drop 2
  · rw [move_eq_reset k (by unfold moveResets; simpa using hcol)]
    exact inv_reset k
  · have hmv0 : move s k =
        (if stepWrap (get_head_position s) s.direction ∈ s.positions.drop 2 then reset k
        else if (stepWrap (get_head_position s) s.direction :: s.positions).length > s.length then
          { s with
              positions := (stepWrap (get_head_position s) s.direction :: s.positions).dropLast,
              last := (stepWrap (get_head_position s) s.direction :: s.positions).getLast? }
        else
          { s with
              positions := stepWrap (get_head_position s) s.direction :: s.positions,
              last := none }) := rfl
    have hmv := hmv0.trans (if_neg hcol)
    set nh := stepWrap (get_head_position s) s.direction with hnhdef
    have hnhR : inRange nh := stepWrap_inRange _ _
    have hAdjback : hd = stepWrap nh (negd s.direction) := by
      rw [hnhdef, hhead]
      exact (stepWrap_negd (hinR hd (by simp [hps])) hdir).symm
    have hnotmem : nh ∉ s.positions := by
      rw [hps]
      intro hm
      rcases List.mem_cons.mp hm with h0 | hm'
      · exact stepWrap_ne_self hdir (h0.trans hhead.symm)
      · cases rest with
        | nil => simp at hm'
        | cons c1 rest2 =>
          rcases List.mem_cons.mp hm' with h1 | hm2
          · obtain ⟨e, he, hc1, hdne⟩ := hneck c1 (by simp [hps])
            exact hdne (stepWrap_inj hdir he (by rw [← hnhdef, h1, hc1]))
          · exact hcol (by rw [hps]; simpa using hm2)
    have hnodup' : (nh :: s.positions).Nodup := List.nodup_cons.mpr ⟨hnotmem, hnodup⟩
    have hchain' : (nh :: s.positions).Chain' Adj := by
      rw [hps]
      refine List.chain'_cons.mpr ⟨⟨negd s.direction, negd_mem hdir, hAdjback⟩, ?_⟩
      rw [← hps]
      exact hchain
    have hinR' : ∀ c ∈ nh :: s.positions, inRange c := by
      intro c hc
      rcases List.mem_cons.mp hc with rfl | hc
      · exact hnhR
      · exact hinR c hc
    rw [hmv]
    split
    · -- tail popped
      have hposA : (nh :: s.positions).dropLast = nh :: (hd :: rest).dropLast := by
        rw [hps, List.dropLast_cons₂]
      refine ⟨hdir, ?_, ?_, ?_, ?_, hnext, ?_⟩
      · dsimp only
        rw [hposA]
        simp
      · dsimp only
        intro c hc
        exact hinR' c (List.mem_of_mem_dropLast hc)
      · dsimp only
        exact List.Nodup.sublist (List.dropLast_sublist _) hnodup'
      · dsimp only
        exact hchain'.init
      · dsimp only [get_head_position_mk]
        intro c1 hc1
        rw [hposA] at hc1 ⊢
        simp only [List.tail_cons] at hc1
        simp only [List.headD_cons]
        cases rest with
        | nil => simp at hc1
        | cons c rest2 =>
          rw [List.dropLast_cons₂] at hc1
          simp only [List.head?_cons, Option.some.injEq] at hc1
          rw [← hc1]
          exact hAdjback
    · -- tail kept
      refine ⟨hdir, by simp, hinR', hnodup', hchain', hnext, ?_⟩
      dsimp only [get_head_position_mk]
      intro c1 hc1
      rw [hps] at hc1
      simp only [List.tail_cons, List.head?_cons, Option.some.injEq] at hc1
      simp only [List.headD_cons]
      rw [← hc1]
      exact hAdjback

end TheSnake

namespace TheSnake

theorem move_no_collision {s : SnakeState} (k : Fin 4)
    (hcol : stepWrap (get_head_position s) s.direction ∉ s.positions.drop 2) :
    move s k =
      (if (stepWrap (get_head_position s) s.direction :: s.positions).length > s.length then
        { s with
            positions := (stepWrap (get_head_position s) s.direction :: s.positions).dropLast,
            last := (stepWrap (get_head_position s) s.direction :: s.positions).getLast? }
      else
        { s with
            positions := stepWrap (get_head_position s) s.direction :: s.positions,
            last := none }) := by
  have hmv0 : move s k =
      (if stepWrap (get_head_position s) s.direction ∈ s.positions.drop 2 then reset k
      else if (stepWrap (get_head_position s) s.direction :: s.positions).length > s.length then
        { s with
            positions := (stepWrap (get_head_position s) s.direction :: s.positions).dropLast,
            last := (stepWrap (get_head_position s) s.direction :: s.positions).getLast? }
      else
        { s with
            positions := stepWrap (get_head_position s) s.direction :: s.positions,
            last := none }) := rfl
  exact hmv0.trans (if_neg hcol)

theorem tick_eq (g : GameState) (i : TickInput) :
    tick g i =
      (if get_head_position (move (update_direction (handle_keys g.snake i.keys)) i.resetK)
          = g.apple then
        { snake :=
            { move (update_direction (handle_keys g.snake i.keys)) i.resetK with
                length :=
                  (move (update_direction (handle_keys g.snake i.keys)) i.resetK).length + 1 }
          apple := randomize_position i.gx i.gy }
      else
        { snake := move (update_direction (handle_keys g.snake i.keys)) i.resetK
          apple := g.apple }) := rfl

theorem handle_keys_fields (s : SnakeState) (ks : List (Fin 4)) :
    (handle_keys s ks).positions = s.positions ∧ (handle_keys s ks).length = s.length ∧
      (handle_keys s ks).direction = s.direction := by
  rcases handle_keys_cases s ks with he | ⟨k, he⟩ <;> rw [he] <;> exact ⟨rfl, rfl, rfl⟩

theorem update_direction_fields (s : SnakeState) :
    (update_direction s).positions = s.positions ∧ (update_direction s).length = s.length := by
  rcases update_direction_cases s with he | ⟨nd, _, _, he⟩ <;> rw [he] <;> exact ⟨rfl, rfl⟩

theorem inv_snakeInit : Inv snakeInit := by
  refine ⟨by decide, by simp [snakeInit], ?_, by simp [snakeInit], by simp [snakeInit], ?_, ?_⟩
  · intro c hc
    simp [snakeInit] at hc
    subst hc
    exact centre_inRange
  · intro nd hnd
    simp [snakeInit] at hnd
  · intro c1 hc1
    simp [snakeInit] at hc1

theorem inv_tick {g : GameState} (h : Inv g.snake) (i : TickInput) : Inv (tick g i).snake := by
  have h3 : Inv (move (update_direction (handle_keys g.snake i.keys)) i.resetK) :=
    premove_move (inv_premove_update (inv_handle_keys h i.keys)) i.resetK
  rw [tick_eq]
  split
  · exact ⟨h3.dirMem, h3.ne, h3.inR, h3.nodup, h3.chain, h3.nextMem, h3.neck⟩
  · exact h3

theorem inv_run {g : GameState} (h : Inv g.snake) (is : List TickInput) :
    Inv (run g is).snake := by
  induction is generalizing g with
  | nil => exact h
  | cons i is ih => exact ih (inv_tick h i)

theorem moveResets_false_iff {s : SnakeState} :
    moveResets s = false ↔ stepWrap (get_head_position s) s.direction ∉ s.positions.drop 2 := by
  unfold moveResets
  simp

theorem move_length_no_collision {s : SnakeState} (k : Fin 4) (h : moveResets s = false) :
    (move s k).length = s.length := by
  rw [move_no_collision k (moveResets_false_iff.mp h)]
  split <;> rfl

theorem lenLe_move {s : SnakeState} (h : s.positions.length ≤ s.length) (k : Fin 4) :
    (move s k).positions.length ≤ (move s k).length := by
  by_cases hcol : moveResets s = true
  · rw [move_eq_reset k hcol]
    simp [reset]
  · rw [move_no_collision k (moveResets_false_iff.mp (Bool.not_eq_true _ ▸ hcol))]
    split
    · simp only [List.length_dropLast, List.length_cons]
      omega
    · rename_i hgt
      simp only [List.length_cons, gt_iff_lt, not_lt] at hgt
      simpa using hgt

theorem lenLe_tick {g : GameState} (h : g.snake.positions.length ≤ g.snake.length)
    (i : TickInput) : (tick g i).snake.positions.length ≤ (tick g i).snake.length := by
  obtain ⟨hp1, hl1, _⟩ := handle_keys_fields g.snake i.keys
  obtain ⟨hp2, hl2⟩ := update_direction_fields (handle_keys g.snake i.keys)
  have h2 : (update_direction (handle_keys g.snake i.keys)).positions.length
      ≤ (update_direction (handle_keys g.snake i.keys)).length := by
    rw [hp2, hp1, hl2, hl1]
    exact h
  have h3 := lenLe_move h2 i.resetK
  rw [tick_eq]
  split
  · dsimp only
    omega
  · exact h3

theorem lenLe_run {g : GameState} (h : g.snake.positions.length ≤ g.snake.length)
    (is : List TickInput) : (run g is).snake.positions.length ≤ (run g is).snake.length := by
  induction is generalizing g with
  | nil => exact h
  | cons i is ih => exact ih (lenLe_tick h i)

end TheSnake

namespace TheSnake

/-- Claim C2, counterexample: with direction RIGHT and the exact opposite
LEFT buffered, `update_direction` leaves the state untouched, so the buffered
pending direction is NOT discarded (`next_direction` stays `some LEFT`),
contradicting the claim that committing clears the buffer in this case. -/
theorem c2_counterexample :
    sOppBuf.direction = RIGHT ∧ sOppBuf.next_direction = some LEFT ∧ LEFT = negd RIGHT ∧
    (update_direction sOppBuf).direction = sOppBuf.direction ∧
    (update_direction sOppBuf).next_direction ≠ none := by decide

/-- Claim C2, amended: if the buffered direction is the exact opposite of
the current direction, `update_direction` is a no-op: the direction is
unchanged and the buffered direction is left in place (not cleared). -/
theorem c2_opposite_noop :
    ∀ (s : SnakeState) (nd : Cell), s.next_direction = some nd → nd = negd s.direction →
      update_direction s = s := by
  intro s nd h1 h2
  rcases update_direction_cases s with he | ⟨nd', hsome', hnne, _⟩
  · exact he
  · rw [h1] at hsome'
    cases hsome'
    exact absurd h2 hnne

/-- Witness for the amended claim C2, at the concrete state `sOppBuf`. -/
theorem c2_opposite_noop_witness : update_direction sOppBuf = sOppBuf :=
  c2_opposite_noop sOppBuf LEFT (by decide) (by decide)

/-- Claim C7: if a pending direction is buffered and it is not the exact
opposite of the current direction (in particular any perpendicular or the
same direction), `update_direction` adopts it as the new direction and
clears the buffer. -/
theorem c7_commit :
    ∀ (s : SnakeState) (nd : Cell), s.next_direction = some nd → nd ≠ negd s.direction →
      (update_direction s).direction = nd ∧ (update_direction s).next_direction = none := by
  intro s nd h1 h2
  have hb : ¬(s.direction.1 = -nd.1 ∧ s.direction.2 = -nd.2) := by
    intro hb
    apply h2
    simp only [negd, Prod.ext_iff]
    constructor <;> omega
  unfold update_direction
  rw [h1]
  simp [hb]

/-- Witness for claim C7, at a snake heading RIGHT with UP buffered. -/
theorem c7_commit_witness :
    (update_direction sPerpBuf).direction = UP ∧
    (update_direction sPerpBuf).next_direction = none :=
  c7_commit sPerpBuf UP (by decide) (by decide)

/-- Claim C8: after `reset`, for any pre-state, the body is the single
centre cell, growth target 1, the buffer is cleared, and the direction is one
of the four unit vectors, each drawn by exactly one of the four equiprobable
`random.choice` indices (uniformity of the draw). -/
theorem c8_reset_state :
    (∀ k : Fin 4, (reset k).length = 1 ∧ (reset k).positions = [centre] ∧
      (reset k).next_direction = none ∧ (reset k).direction ∈ dirList) ∧
    (∀ d ∈ dirList, ∃! k : Fin 4, (reset k).direction = d) := by
  constructor
  · intro k
    exact ⟨rfl, rfl, rfl, dirList_get_mem k⟩
  · intro d hd
    fin_cases hd
    · exact ⟨0, rfl, by decide⟩
    · exact ⟨1, rfl, by decide⟩
    · exact ⟨2, rfl, by decide⟩
    · exact ⟨3, rfl, by decide⟩

/-- Witness for claim C8, at the concrete index 2 and direction UP. -/
theorem c8_reset_state_witness :
    (reset 2).length = 1 ∧ (∃! k : Fin 4, (reset k).direction = UP) :=
  ⟨(c8_reset_state.1 2).1, c8_reset_state.2 UP (by decide)⟩

/-- Claim C9, end-to-end scenario A: a length-1 snake at the centre moving
RIGHT with the apple one cell ahead on the same row reaches the apple in one
tick; growth target becomes 2, the body length stays 1 this tick, and the
apple is relocated by `randomize_position`. -/
theorem c9_scenario_a :
    gameA.snake = snakeInit ∧
    gameA.apple = stepWrap (get_head_position gameA.snake) RIGHT ∧
    gameA.snake.positions.length = 1 ∧ gameA.snake.length = 1 ∧
    get_head_position (tick gameA tickA).snake = gameA.apple ∧
    (tick gameA tickA).snake.length = 2 ∧
    (tick gameA tickA).snake.positions.length = 1 ∧
    (tick gameA tickA).apple = randomize_position tickA.gx tickA.gy ∧
    (tick gameA tickA).apple ≠ gameA.apple := by decide

/-- Claim C10: for any draws within the `random.randint` bounds,
`randomize_position` yields a grid-aligned cell inside the board: each
coordinate is a multiple of `GRID_SIZE`, nonnegative, and below the screen
extent; `Apple` construction places the apple with the same function. -/
theorem c10_apple_on_grid :
    ∀ gx gy : Int, 0 ≤ gx → gx ≤ GRID_WIDTH - 1 → 0 ≤ gy → gy ≤ GRID_HEIGHT - 1 →
      GRID_SIZE ∣ (randomize_position gx gy).1 ∧
      0 ≤ (randomize_position gx gy).1 ∧ (randomize_position gx gy).1 < SCREEN_WIDTH ∧
      GRID_SIZE ∣ (randomize_position gx gy).2 ∧
      0 ≤ (randomize_position gx gy).2 ∧ (randomize_position gx gy).2 < SCREEN_HEIGHT ∧
      (gameInit gx gy).apple = randomize_position gx gy := by
  intro gx gy h1 h2 h3 h4
  rw [show GRID_WIDTH - 1 = 31 from by decide] at h2
  rw [show GRID_HEIGHT - 1 = 23 from by decide] at h4
  refine ⟨dvd_mul_left _ _, ?_, ?_, dvd_mul_left _ _, ?_, ?_, rfl⟩ <;>
    simp only [randomize_position, GRID_SIZE, SCREEN_WIDTH, SCREEN_HEIGHT] <;>
    omega

/-- Witness for claim C10, at the concrete draws (3, 5). -/
theorem c10_apple_on_grid_witness :
    GRID_SIZE ∣ (randomize_position 3 5).1 ∧
    0 ≤ (randomize_position 3 5).1 ∧ (randomize_position 3 5).1 < SCREEN_WIDTH ∧
    GRID_SIZE ∣ (randomize_position 3 5).2 ∧
    0 ≤ (randomize_position 3 5).2 ∧ (randomize_position 3 5).2 < SCREEN_HEIGHT ∧
    (gameInit 3 5).apple = randomize_position 3 5 :=
  c10_apple_on_grid 3 5 (by decide) (by decide) (by decide) (by decide)

/-- Claim C1, counterexample: a six-tick execution from the initial state
in which the snake eats three apples, coils into a loop, and self-collides
while the apple sits on the board centre.  On the very tick in which the
reset occurred, the driver still runs the food-overlap step: the growth
target is incremented (ends at 2, not 1) and the apple is relocated,
contradicting the claim that a reset tick has no growth or food effects. -/
theorem c1_counterexample :
    moveResets (update_direction (handle_keys game5.snake trace6.keys)) = true ∧
    (tick game5 trace6).snake.length = 2 ∧
    (tick game5 trace6).apple ≠ game5.apple := by decide

/-- Claim C3, counterexample: in the same six-tick execution the growth
target (`length`) is 4 after five ticks and 2 after the sixth (reset) tick,
so `length` does not only increase over time. -/
theorem c3_counterexample :
    (run (gameInit 17 12) trace5).snake.length = 4 ∧
    (run (gameInit 17 12) (trace5 ++ [trace6])).snake.length = 2 := by decide

end TheSnake

namespace TheSnake

theorem inv_bodyOK {s : SnakeState} (h : Inv s) : BodyOK s := by
  refine ⟨h.ne, ?_, h.nodup, h.chain⟩
  cases hps : s.positions with
  | nil => exact absurd hps h.ne
  | cons a t => simp [get_head_position, hps]

theorem premove_bodyOK {s : SnakeState} (h : PreMove s) : BodyOK s := by
  refine ⟨h.ne, ?_, h.nodup, h.chain⟩
  cases hps : s.positions with
  | nil => exact absurd hps h.ne
  | cons a t => simp [get_head_position, hps]

/-- Claim C1, amended: when `move` detects a self-collision it calls
`reset` and returns without inserting a head; the driver however does not
skip the food-overlap step: after the reset the head is at the board centre,
so if the apple is not at the centre there are no growth or food effects
this tick, while if the apple is exactly at the centre the growth target is
incremented (to 2) and the apple is relocated on the reset tick. -/
theorem c1_reset_tick :
    ∀ (g : GameState) (i : TickInput),
      moveResets (update_direction (handle_keys g.snake i.keys)) = true →
      move (update_direction (handle_keys g.snake i.keys)) i.resetK = reset i.resetK ∧
      (g.apple ≠ centre →
        (tick g i).snake = reset i.resetK ∧ (tick g i).apple = g.apple) ∧
      (g.apple = centre →
        (tick g i).snake = { reset i.resetK with length := 2 } ∧
        (tick g i).apple = randomize_position i.gx i.gy) := by
  intro g i h
  have hm := move_eq_reset i.resetK h
  have hh : get_head_position (reset i.resetK) = centre := rfl
  refine ⟨hm, ?_, ?_⟩
  · intro hne
    rw [tick_eq, hm, hh, if_neg (fun hc => hne hc.symm)]
    exact ⟨rfl, rfl⟩
  · intro hceq
    rw [tick_eq, hm, hh, if_pos hceq.symm]
    exact ⟨rfl, rfl⟩

/-- Witness for the amended claim C1, at the concrete reset tick of the
six-tick execution (apple at the centre). -/
theorem c1_reset_tick_witness :
    (tick game5 trace6).snake = { reset trace6.resetK with length := 2 } ∧
    (tick game5 trace6).apple = randomize_position trace6.gx trace6.gy :=
  (c1_reset_tick game5 trace6 (by decide)).2.2 (by decide)

/-- Claim C3, amended: on every tick of every execution from the initial
state, `len(body) <= growthTarget`; the growth target never decreases on a
tick without a reset, but a self-collision reset sets it to 1 (after which
the centre food check may re-increment it), which can decrease it. -/
theorem c3_len_le_growth :
    (∀ (gx gy : Int) (is : List TickInput),
      (run (gameInit gx gy) is).snake.positions.length ≤ (run (gameInit gx gy) is).snake.length) ∧
    (∀ (g : GameState) (i : TickInput),
      moveResets (update_direction (handle_keys g.snake i.keys)) = false →
      g.snake.length ≤ (tick g i).snake.length) ∧
    (∀ (g : GameState) (i : TickInput),
      moveResets (update_direction (handle_keys g.snake i.keys)) = true →
      (move (update_direction (handle_keys g.snake i.keys)) i.resetK).length = 1) := by
  refine ⟨?_, ?_, ?_⟩
  · intro gx gy is
    exact lenLe_run (by simp [gameInit, snakeInit]) is
  · intro g i h
    obtain ⟨hp1, hl1, _⟩ := handle_keys_fields g.snake i.keys
    obtain ⟨hp2, hl2⟩ := update_direction_fields (handle_keys g.snake i.keys)
    have h3 : (move (update_direction (handle_keys g.snake i.keys)) i.resetK).length
        = g.snake.length := by
      rw [move_length_no_collision _ h, hl2, hl1]
    rw [tick_eq]
    split
    · dsimp only
      omega
    · dsimp only
      omega
  · intro g i h
    rw [move_eq_reset _ h]
    rfl

/-- Witness for the amended claim C3: a non-reset tick does not decrease
the growth target, and the reset tick of the six-tick trace sets it to 1. -/
theorem c3_len_le_growth_witness :
    gameA.snake.length ≤ (tick gameA tickA).snake.length ∧
    (move (update_direction (handle_keys game5.snake trace6.keys)) trace6.resetK).length = 1 :=
  ⟨c3_len_le_growth.2.1 gameA tickA (by decide),
   c3_len_le_growth.2.2 game5 trace6 (by decide)⟩

end TheSnake

namespace TheSnake

/-- Claim C4: `move` triggers a self-collision reset exactly when the new
head equals a cell of the pre-move body at index at least 2; a body of
length at most 2 can never self-collide; and moving into the neck cell
`positions[1]` of a duplicate-free body never triggers a collision,
regardless of length. -/
theorem c4_collision_characterization :
    ∀ (s : SnakeState) (k : Fin 4),
      (moveResets s = true ↔ ∃ i : Fin s.positions.length, 2 ≤ (i : ℕ) ∧
        s.positions.get i = stepWrap (get_head_position s) s.direction) ∧
      (moveResets s = true → move s k = reset k) ∧
      (s.positions.length ≤ 2 → moveResets s = false) ∧
      (∀ c1, s.positions.tail.head? = some c1 → s.positions.Nodup →
        stepWrap (get_head_position s) s.direction = c1 → moveResets s = false) := by
  intro s k
  refine ⟨?_, fun h => move_eq_reset k h, ?_, ?_⟩
  · unfold moveResets
    rw [decide_eq_true_iff]
    constructor
    · intro hm
      obtain ⟨n, hn⟩ := List.mem_iff_get.mp hm
      have hlen2 : (n : ℕ) < s.positions.length - 2 := by
        have h1 : (n : ℕ) < (s.positions.drop 2).length := n.isLt
        have h2 : (s.positions.drop 2).length = s.positions.length - 2 :=
          List.length_drop 2 s.positions
        omega
      refine ⟨⟨2 + (n : ℕ), by omega⟩, by simp, ?_⟩
      rw [← hn]
      simp [List.getElem_drop]
    · rintro ⟨i, h2i, hi⟩
      have hlt : (i : ℕ) - 2 < (s.positions.drop 2).length := by
        rw [List.length_drop]
        have := i.isLt
        omega
      apply List.mem_iff_get.mpr
      refine ⟨⟨(i : ℕ) - 2, hlt⟩, ?_⟩
      rw [← hi]
      have hidx : 2 + ((i : ℕ) - 2) = (i : ℕ) := by omega
      simp [List.getElem_drop, hidx]
  · intro hlen
    rw [moveResets_false_iff]
    intro hm
    have hnil : s.positions.drop 2 = [] :=
      List.length_eq_zero.mp (by rw [List.length_drop]; omega)
    rw [hnil] at hm
    exact List.not_mem_nil _ hm
  · intro c1 htail hnodup heq
    rw [moveResets_false_iff]
    cases hps : s.positions with
    | nil =>
      rw [hps] at htail
      simp at htail
    | cons a t =>
      cases ht : t with
      | nil =>
        rw [hps, ht] at htail
        simp at htail
      | cons b t2 =>
        rw [hps, ht] at htail
        simp only [List.tail_cons, List.head?_cons, Option.some.injEq] at htail
        rw [heq]
        simp only [List.drop_succ_cons, List.drop_zero]
        rw [hps, ht] at hnodup
        have hb : b ∉ t2 := (List.nodup_cons.mp (List.nodup_cons.mp hnodup).2).1
        rw [← htail]
        exact hb

/-- Witness for claim C4: the initial snake cannot collide, and the
concrete snake `sNeck` moving into its own neck does not collide. -/
theorem c4_collision_characterization_witness :
    moveResets snakeInit = false ∧ moveResets sNeck = false :=
  ⟨(c4_collision_characterization snakeInit 0).2.2.1 (by decide),
   (c4_collision_characterization sNeck 0).2.2.2 (340, 240) (by decide) (by decide) (by decide)⟩

/-- Claim C5: after construction, after every reachable tick of the
driver loop, and mid-tick after `update_direction` and after `move`
(including the reset branch; the head-equals-food update does not touch the
body), the body is non-empty, head-first, duplicate-free, and consecutive
cells are wrap-adjacent by exactly one grid step. -/
theorem c5_body_wellformed :
    ∀ (gx gy : Int) (is : List TickInput) (ks : List (Fin 4)) (k : Fin 4),
      BodyOK snakeInit ∧
      BodyOK (run (gameInit gx gy) is).snake ∧
      BodyOK (update_direction (handle_keys (run (gameInit gx gy) is).snake ks)) ∧
      BodyOK (move (update_direction (handle_keys (run (gameInit gx gy) is).snake ks)) k) := by
  intro gx gy is ks k
  have h1 : Inv (run (gameInit gx gy) is).snake := inv_run inv_snakeInit is
  have h2 := inv_handle_keys h1 ks
  have h3 := inv_premove_update h2
  exact ⟨inv_bodyOK inv_snakeInit, inv_bodyOK h1, premove_bodyOK h3,
    inv_bodyOK (premove_move h3 k)⟩

/-- Claim C6: for any state whose direction is a unit vector, the new
head is the per-axis modular wrap of head plus one cell in that direction,
always non-negative and in range, and wrap-adjacent (one step) to the
previous head; on a non-reset `move` the resulting head is exactly this
cell; and stepping off any of the four edges wraps to the opposite edge
(RIGHT from the rightmost column yields x = 0, and similarly). -/
theorem c6_wrap_step :
    (∀ (s : SnakeState) (k : Fin 4), s.direction ∈ dirList → s.positions ≠ [] →
      inRange (stepWrap (get_head_position s) s.direction) ∧
      Adj (get_head_position s) (stepWrap (get_head_position s) s.direction) ∧
      (moveResets s = false →
        get_head_position (move s k) = stepWrap (get_head_position s) s.direction)) ∧
    (∀ c : Cell, c.1 = SCREEN_WIDTH - GRID_SIZE → (stepWrap c RIGHT).1 = 0) ∧
    (∀ c : Cell, c.1 = 0 → (stepWrap c LEFT).1 = SCREEN_WIDTH - GRID_SIZE) ∧
    (∀ c : Cell, c.2 = SCREEN_HEIGHT - GRID_SIZE → (stepWrap c DOWN).2 = 0) ∧
    (∀ c : Cell, c.2 = 0 → (stepWrap c UP).2 = SCREEN_HEIGHT - GRID_SIZE) := by
  refine ⟨?_, ?_, ?_, ?_, ?_⟩
  · intro s k hdir hne
    refine ⟨stepWrap_inRange _ _, ⟨s.direction, hdir, rfl⟩, ?_⟩
    intro h
    obtain ⟨a, t, hps⟩ : ∃ a t, s.positions = a :: t := by
      cases hps : s.positions with
      | nil => exact absurd hps hne
      | cons a t => exact ⟨a, t, rfl⟩
    rw [move_no_collision k (moveResets_false_iff.mp h)]
    split
    · dsimp only [get_head_position_mk]
      rw [hps, List.dropLast_cons₂]
      simp
    · dsimp only [get_head_position_mk]
      simp
  · intro c hc
    rw [show SCREEN_WIDTH - GRID_SIZE = 620 from by decide] at hc
    show (c.1 + 1 * 20) % 640 = 0
    rw [hc]
    decide
  · intro c hc
    show (c.1 + -1 * 20) % 640 = SCREEN_WIDTH - GRID_SIZE
    rw [hc, show SCREEN_WIDTH - GRID_SIZE = 620 from by decide]
    decide
  · intro c hc
    rw [show SCREEN_HEIGHT - GRID_SIZE = 460 from by decide] at hc
    show (c.2 + 1 * 20) % 480 = 0
    rw [hc]
    decide
  · intro c hc
    show (c.2 + -1 * 20) % 480 = SCREEN_HEIGHT - GRID_SIZE
    rw [hc, show SCREEN_HEIGHT - GRID_SIZE = 460 from by decide]
    decide

/-- Witness for claim C6, at the initial snake and the rightmost-column
cell (620, 240). -/
theorem c6_wrap_step_witness :
    inRange (stepWrap (get_head_position snakeInit) snakeInit.direction) ∧
    Adj (get_head_position snakeInit) (stepWrap (get_head_position snakeInit) snakeInit.direction) ∧
    get_head_position (move snakeInit 0) = stepWrap (get_head_position snakeInit) snakeInit.direction ∧
    (stepWrap (620, 240) RIGHT).1 = 0 :=
  ⟨(c6_wrap_step.1 snakeInit 0 (by decide) (by decide)).1,
   (c6_wrap_step.1 snakeInit 0 (by decide) (by decide)).2.1,
   (c6_wrap_step.1 snakeInit 0 (by decide) (by decide)).2.2 (by decide),
   c6_wrap_step.2.1 (620, 240) (by decide)⟩

end TheSnake
